import Mathlib

/-!
Verification development for the My-Life-Log repository.

The program is a client-side daily-life tracker.  The authoritative
implementation of the core (day-key codec, day-log store, month goals,
aggregation and to-do carry-over) is the full application found in
src/src/components/ui/calendar.tsx (the v2 app section, storage keys
my-life-log:logs:v2 and my-life-log:month-goals:v1).  The definitions below
are a shallow embedding of that code: JavaScript numbers are modelled as
rationals (with an explicit JSNum type carrying NaN and the infinities
where the code can produce them), the wall clock Date.now() is an explicit
parameter, the localStorage slot is an explicit Option String, and the
store object is an association list whose update has the JavaScript
object-spread semantics (replace in place if the key exists, append
otherwise).
-/

namespace LifeLog

/-! ## Data model (types in calendar.tsx, lines 48-67) -/

/-- Todo item: id is a number produced by Date.now() based generation. -/
structure Todo where
  id : Nat
  text : String
  done : Bool
deriving DecidableEq

/-- Expense ledger item. -/
structure ExpenseItem where
  id : Nat
  amount : ℚ
  note : Option String
  createdAt : Nat
deriving DecidableEq

/-- One day of recorded fields; every field optional, absence means not yet
recorded.  The cleaning map is a list of area-name/flag pairs. -/
structure DayLog where
  wakeTime : Option String := none
  sleepTime : Option String := none
  steps : Option ℚ := none
  studyMinutes : Option ℚ := none
  weight : Option ℚ := none
  memo : Option String := none
  todos : Option (List Todo) := none
  expenses : Option (List ExpenseItem) := none
  cleaning : Option (List (String × Bool)) := none
deriving DecidableEq

/-- A JavaScript Date value, reduced to the fields the program reads:
local calendar components plus time of day.  month is 1-based (the code
uses getMonth() which is 0-based; all comparisons in the code are
equalities between two getMonth() results, so the shift is immaterial). -/
structure JSDate where
  year : Nat
  month : Nat
  day : Nat
  hour : Nat := 0
  minute : Nat := 0
deriving DecidableEq

/-- A JavaScript number: NaN, the infinities, or a finite value modelled
as a rational. -/
inductive JSNum where
  | nan
  | posInf
  | negInf
  | num (val : ℚ)
deriving DecidableEq

/-- JavaScript truthiness of a number (NaN and 0 are falsy). -/
def jsTruthy : JSNum → Bool
  | .nan => false
  | .posInf => true
  | .negInf => true
  | .num q => if q = 0 then false else true

/-- Math.floor on a JavaScript number. -/
def jsFloor : JSNum → JSNum
  | .num q => .num (⌊q⌋ : ℤ)
  | x => x

/-- Math.max(1, x) on a JavaScript number. -/
def jsMaxOne : JSNum → JSNum
  | .nan => .nan
  | .posInf => .posInf
  | .negInf => .num 1
  | .num q => .num (max 1 q)

/-- Number.isFinite. -/
def jsIsFinite : JSNum → Bool
  | .num _ => true
  | _ => false

/-! ## Day-key codec (calendar.tsx line 114: dayKey d = d.toDateString()).

toDateString produces a string of the shape Www Mmm DD YYYY: three-letter
weekday name, three-letter month name, zero-padded two-digit day and the
zero-padded (to four digits) decimal year, separated by single spaces.
The inverse direction, new Date(key) followed by getFullYear/getMonth
(used by monthlyExpenseTotal, lines 550-560), is modelled by
parseDayKeyChars below. -/

/-- The character of a single decimal digit. -/
def digitChar (d : Nat) : Char := Char.ofNat (48 + d)

/-- Decimal digits of n, most significant first, by repeated division;
the first argument is fuel (n itself suffices). -/
def natCharsAux : Nat → Nat → List Char
  | 0, _ => []
  | fuel + 1, n => if n = 0 then [] else natCharsAux fuel (n / 10) ++ [digitChar (n % 10)]

/-- Decimal representation of a natural number. -/
def natChars (n : Nat) : List Char :=
  if n = 0 then [digitChar 0] else natCharsAux n n

/-- Two-digit zero-padded decimal representation (for day numbers < 100). -/
def pad2 (n : Nat) : List Char := [digitChar (n / 10), digitChar (n % 10)]

/-- Year formatted as toDateString does: zero padded to at least 4 digits. -/
def pad4Year (y : Nat) : List Char :=
  List.replicate (4 - (natChars y).length) (digitChar 0) ++ natChars y

/-- Sakamoto weekday table. -/
def sakamotoTable : List Nat := [0, 3, 2, 5, 0, 3, 5, 1, 4, 6, 2, 4]

/-- Day of week (0 = Sunday) of a Gregorian date, Sakamoto method. -/
def weekdayIndex (y m d : Nat) : Nat :=
  let yy := if m < 3 then y - 1 else y
  (yy + yy / 4 - yy / 100 + yy / 400 + sakamotoTable.getD (m - 1) 0 + d) % 7

/-- Three-letter weekday names used by toDateString. -/
def weekdayNames : List (List Char) :=
  [['S','u','n'], ['M','o','n'], ['T','u','e'], ['W','e','d'],
   ['T','h','u'], ['F','r','i'], ['S','a','t']]

/-- Three-letter month names used by toDateString. -/
def monthNamesList : List (List Char) :=
  [['J','a','n'], ['F','e','b'], ['M','a','r'], ['A','p','r'],
   ['M','a','y'], ['J','u','n'], ['J','u','l'], ['A','u','g'],
   ['S','e','p'], ['O','c','t'], ['N','o','v'], ['D','e','c']]

/-- The character list of dayKey (d.toDateString()). -/
def dayKeyChars (t : JSDate) : List Char :=
  (weekdayNames.getD (weekdayIndex t.year t.month t.day) []) ++
    ' ' :: (monthNamesList.getD (t.month - 1) []) ++
      ' ' :: pad2 t.day ++ ' ' :: pad4Year t.year

/-- dayKey (calendar.tsx line 114): the canonical day key of a date. -/
def dayKey (t : JSDate) : String := String.mk (dayKeyChars t)

/-- monthKey (calendar.tsx line 115): year, a dash, two-digit month. -/
def monthKey (t : JSDate) : String :=
  String.mk (natChars t.year ++ '-' :: pad2 t.month)

/-- Value of a decimal digit character, if it is one. -/
def digitVal? (c : Char) : Option Nat :=
  if 48 ≤ c.toNat ∧ c.toNat ≤ 57 then some (c.toNat - 48) else none

/-- Values of a list of digit characters, failing on any non-digit. -/
def digitsVal? : List Char → Option (List Nat)
  | [] => some []
  | c :: cs =>
    match digitVal? c, digitsVal? cs with
    | some d, some ds => some (d :: ds)
    | _, _ => none

/-- Value of a most-significant-first digit list. -/
def decimalVal (ds : List Nat) : Nat := ds.foldl (fun a d => a * 10 + d) 0

/-- Parse a nonempty all-digit character list as a decimal number. -/
def charsToNat? : List Char → Option Nat
  | [] => none
  | c :: cs => (digitsVal? (c :: cs)).map decimalVal

/-- Month number of a three-letter month name. -/
def monthOfName? : List Char → Option Nat
  | ['J','a','n'] => some 1
  | ['F','e','b'] => some 2
  | ['M','a','r'] => some 3
  | ['A','p','r'] => some 4
  | ['M','a','y'] => some 5
  | ['J','u','n'] => some 6
  | ['J','u','l'] => some 7
  | ['A','u','g'] => some 8
  | ['S','e','p'] => some 9
  | ['O','c','t'] => some 10
  | ['N','o','v'] => some 11
  | ['D','e','c'] => some 12
  | _ => none

/-- Decoding a day key back to (year, month, day), as the Date constructor
applied to a toDateString-shaped key does (the weekday token is ignored,
as the JavaScript parser ignores it); any string not of that shape yields
none, matching the Invalid Date whose getFullYear/getMonth comparisons
are all false. -/
def parseDayKeyChars (cs : List Char) : Option (Nat × Nat × Nat) :=
  match cs.drop 3 with
  | ' ' :: m1 :: m2 :: m3 :: ' ' :: d1 :: d2 :: ' ' :: rest =>
    match monthOfName? [m1, m2, m3], digitVal? d1, digitVal? d2, charsToNat? rest with
    | some m, some dTens, some dOnes, some y => some (y, m, dTens * 10 + dOnes)
    | _, _, _, _ => none
  | _ => none

/-! ## Calendar arithmetic (Date mutation via setDate(getDate() + 1)) -/

/-- Gregorian leap year rule. -/
def isLeapYear (y : Nat) : Bool := y % 4 = 0 && (y % 100 != 0 || y % 400 = 0)

/-- Number of days of a month. -/
def daysInMonth (y m : Nat) : Nat :=
  if m = 2 then (if isLeapYear y then 29 else 28)
  else if m = 4 ∨ m = 6 ∨ m = 9 ∨ m = 11 then 30
  else 31

/-- The next calendar day, as tomorrow.setDate(date.getDate() + 1)
computes it (rolling over months and years, keeping the time of day). -/
def nextDay (t : JSDate) : JSDate :=
  if t.day < daysInMonth t.year t.month then { t with day := t.day + 1 }
  else if t.month < 12 then { t with month := t.month + 1, day := 1 }
  else { t with year := t.year + 1, month := 1, day := 1 }

/-- A well-formed calendar date (positive year, real month and day). -/
def ValidDate (t : JSDate) : Prop :=
  1 ≤ t.year ∧ 1 ≤ t.month ∧ t.month ≤ 12 ∧ 1 ≤ t.day ∧ t.day ≤ daysInMonth t.year t.month

instance : DecidablePred ValidDate := fun t => by unfold ValidDate; infer_instance

/-! ## The day-log store.

The store is the logs object: an association list from day-key strings to
day logs.  setEntry is the meaning of the object spread with a computed
key: replace in place when the key is present, append otherwise. -/

abbrev Store := List (String × DayLog)

/-- Lookup of a key in an association list (property access logs[k]). -/
def lookupEntry {α : Type} : List (String × α) → String → Option α
  | [], _ => none
  | p :: rest, k => if p.1 = k then some p.2 else lookupEntry rest k

/-- Object spread update with a computed key. -/
def setEntry {α : Type} : List (String × α) → String → α → List (String × α)
  | [], k, v => [(k, v)]
  | p :: rest, k, v => if p.1 = k then (k, v) :: rest else p :: setEntry rest k v

/-! ## Month goals (calendar.tsx lines 64-78 and 380-388) -/

/-- Month goals record. -/
structure MonthGoals where
  stepsGoal : JSNum
  studyGoal : JSNum
deriving DecidableEq

/-- DEFAULT_GOALS.stepsGoal. -/
def defaultStepsGoal : ℚ := 10000

/-- DEFAULT_GOALS.studyGoal. -/
def defaultStudyGoal : ℚ := 120

/-- The numeric coercion saveMonthGoals applies to one goal input:
Math.max(1, Math.floor(Number(input) or-else default)), where the or-else
is the JavaScript truthiness disjunction. -/
def coerceGoal (x : JSNum) (d : ℚ) : JSNum :=
  jsMaxOne (jsFloor (if jsTruthy x then x else .num d))

/-- saveMonthGoals (calendar.tsx lines 380-388), acting on the
month-goals association list at the current month key; the two inputs are
the Number values of the two text fields. -/
def saveMonthGoals (goalsAll : List (String × MonthGoals)) (mk : String)
    (stepsIn studyIn : JSNum) : List (String × MonthGoals) :=
  setEntry goalsAll mk
    { stepsGoal := coerceGoal stepsIn defaultStepsGoal
      studyGoal := coerceGoal studyIn defaultStudyGoal }

/-! ## Progress circle (calendar.tsx lines 204-228) -/

/-- The percent shown in the text label of ProgressCircle:
goal > 0 ? Math.round(value / goal * 100) : 0.  Math.round rounds half
toward positive infinity, which on rationals is the floor of x + 1/2. -/
def goalPercent (value goal : ℚ) : ℤ :=
  if 0 < goal then ⌊value / goal * 100 + 1 / 2⌋ else 0

/-- The fill value handed to the bounded circular bar:
Math.min(Math.max(percent, 0), 100). -/
def progressFill (value goal : ℚ) : ℤ :=
  min (max (goalPercent value goal) 0) 100

/-! ## Expenses (calendar.tsx lines 545-579) -/

/-- expenseTotal (lines 545-548): reduce of amount over the item list.
The code reads Number(it.amount) or-else 0, which on a rational amount is
the amount itself. -/
def expenseTotal (items : List ExpenseItem) : ℚ :=
  items.foldl (fun s it => s + it.amount) 0

/-- The expense total of one stored day log (absent list counts as empty,
as the Array.isArray guards do). -/
def dayExpenseTotal (l : DayLog) : ℚ := expenseTotal (l.expenses.getD [])

/-- addExpenseItem (lines 562-579): floor the numeric input, skip unless
the result is a finite number greater than 0, otherwise append one item.
now stands for Date.now(). -/
def addExpenseItem (now : Nat) (amountIn : JSNum) (noteIn : String)
    (items : List ExpenseItem) : List ExpenseItem :=
  match jsFloor amountIn with
  | .num a =>
    if a ≤ 0 then items
    else
      items ++ [{ id := now, amount := a
                  note := if noteIn.trim = "" then none else some noteIn.trim
                  createdAt := now }]
  | _ => items

/-- Whether a stored key decodes to the given year and month, as
monthlyExpenseTotal tests with getFullYear and getMonth on new Date(k). -/
def keyInMonth (k : String) (y m : Nat) : Bool :=
  match parseDayKeyChars k.data with
  | some (ky, km, _) => ky == y && km == m
  | none => false

/-- monthlyExpenseTotal (lines 550-560): reduce over the store entries,
adding the day expense sum of every entry whose decoded key matches the
year and month of the selected date. -/
def monthlyExpenseTotal (st : Store) (date : JSDate) : ℚ :=
  st.foldl
    (fun sum kv =>
      if keyInMonth kv.1 date.year date.month then sum + dayExpenseTotal kv.2 else sum)
    0

/-! ## Persistence loading (calendar.tsx lines 117-123) -/

/-- safeParse: a falsy slot value (null or the empty string) or a decode
failure (JSON.parse throwing) falls back; decode stands for JSON.parse,
an external collaborator, with none for a thrown exception. -/
def safeParse {T : Type} (decode : String → Option T) (s : Option String)
    (fallback : T) : T :=
  match s with
  | none => fallback
  | some str => if str = "" then fallback else (decode str).getD fallback

/-- Loading the logs store at startup: safeParse of the slot content with
the empty mapping as fallback. -/
def loadLogs (decode : String → Option Store) (slot : Option String) : Store :=
  safeParse decode slot []

/-! ## Carry-over (calendar.tsx lines 501-526) -/

/-- The to-do list of a stored day (absent log or absent list is empty,
as the Array.isArray guard reads it). -/
def todosOf (st : Store) (k : String) : List Todo :=
  (((lookupEntry st k).getD {}).todos).getD []

/-- The pending (not done) items of a stored day. -/
def pendingOf (st : Store) (k : String) : List Todo :=
  (todosOf st k).filter (fun t => !t.done)

/-- The done items of a stored day. -/
def doneOf (st : Store) (k : String) : List Todo :=
  (todosOf st k).filter (fun t => t.done)

/-- The re-identified copies of the pending items: pending.map with
id Date.now() + index; now stands for Date.now(). -/
def carriedTodos (now : Nat) (pending : List Todo) : List Todo :=
  pending.enum.map (fun p => { p.2 with id := now + p.1 })

/-- carryOverTodosToTomorrow (lines 501-526).  Returns the resulting
store and whether saveLogs (the durable write) ran: with no pending item
the handler returns before touching anything, otherwise it writes the
source day with only its done items and the destination day with its
previous list followed by the re-identified pending items, in one store
update. -/
def carryOverTodosToTomorrow (now : Nat) (st : Store) (date : JSDate) :
    Store × Bool :=
  let dk := dayKey date
  let pending := pendingOf st dk
  if pending.isEmpty then (st, false)
  else
    let tKey := dayKey (nextDay date)
    let tomorrowLog := (lookupEntry st tKey).getD {}
    let existingTomorrow := tomorrowLog.todos.getD []
    let carried := carriedTodos now pending
    let nextTomorrowTodos := existingTomorrow ++ carried
    let nextTodayTodos := doneOf st dk
    let srcLog := (lookupEntry st dk).getD {}
    (setEntry (setEntry st dk { srcLog with todos := some nextTodayTodos }) tKey
      { tomorrowLog with todos := some nextTomorrowTodos }, true)

/-- A day log with its todos field cleared, for frame statements. -/
def eraseTodos (l : DayLog) : DayLog := { l with todos := none }

/-! ## Codec lemmas: decoding a day key recovers the calendar day -/

theorem digitVal?_digitChar : ∀ d : Nat, d < 10 → digitVal? (digitChar d) = some d := by
  decide

theorem digitsVal?_append {l1 l2 : List Char} {a b : List Nat}
    (h1 : digitsVal? l1 = some a) (h2 : digitsVal? l2 = some b) :
    digitsVal? (l1 ++ l2) = some (a ++ b) := by
  induction l1 generalizing a with
  | nil =>
    simp only [digitsVal?, Option.some.injEq] at h1
    subst h1
    simpa using h2
  | cons c cs ih =>
    rw [List.cons_append]
    simp only [digitsVal?] at h1 ⊢
    cases hd : digitVal? c with
    | none => rw [hd] at h1; exact absurd h1 (by simp)
    | some d =>
      rw [hd] at h1
      cases hds : digitsVal? cs with
      | none => rw [hds] at h1; exact absurd h1 (by simp)
      | some ds =>
        rw [hds] at h1
        rw [ih hds]
        simp only [Option.some.injEq] at h1
        subst h1
        simp

theorem natCharsAux_spec : ∀ fuel n : Nat, n ≤ fuel →
    ∃ ds : List Nat, digitsVal? (natCharsAux fuel n) = some ds ∧
      ∀ acc : Nat, ds.foldl (fun a d => a * 10 + d) acc = acc * 10 ^ ds.length + n := by
  intro fuel
  induction fuel with
  | zero =>
    intro n hn
    have h0 : n = 0 := Nat.le_zero.mp hn
    subst h0
    exact ⟨[], rfl, fun acc => by simp⟩
  | succ f ih =>
    intro n hn
    by_cases h0 : n = 0
    · subst h0
      refine ⟨[], ?_, fun acc => by simp⟩
      simp [natCharsAux, digitsVal?]
    · have hdiv : n / 10 ≤ f := by
        have := Nat.div_lt_self (Nat.pos_of_ne_zero h0) (by norm_num : 1 < 10)
        omega
      obtain ⟨ds, hds, hval⟩ := ih (n / 10) hdiv
      have hmod : digitsVal? [digitChar (n % 10)] = some [n % 10] := by
        have h10 : n % 10 < 10 := Nat.mod_lt _ (by norm_num)
        simp [digitsVal?, digitVal?_digitChar _ h10]
      refine ⟨ds ++ [n % 10], ?_, ?_⟩
      · rw [natCharsAux, if_neg h0]
        exact digitsVal?_append hds hmod
      · intro acc
        rw [List.foldl_append, hval acc]
        have hx : (ds ++ [n % 10]).length = ds.length + 1 := by simp
        rw [hx, pow_succ, ← mul_assoc]
        simp only [List.foldl_cons, List.foldl_nil]
        generalize acc * 10 ^ ds.length = X
        omega

theorem natCharsAux_ne_nil {fuel n : Nat} (h1 : 1 ≤ n) (h2 : n ≤ fuel) :
    natCharsAux fuel n ≠ [] := by
  cases fuel with
  | zero => omega
  | succ f =>
    rw [natCharsAux, if_neg (by omega)]
    simp

theorem charsToNat?_eq {cs : List Char} (h : cs ≠ []) :
    charsToNat? cs = (digitsVal? cs).map decimalVal := by
  cases cs with
  | nil => exact absurd rfl h
  | cons c cs => rfl

theorem digitsVal?_replicate_zero : ∀ k : Nat,
    digitsVal? (List.replicate k (digitChar 0)) = some (List.replicate k 0) := by
  intro k
  induction k with
  | zero => rfl
  | succ m ih =>
    simp only [List.replicate_succ, digitsVal?]
    rw [ih, digitVal?_digitChar 0 (by omega)]

theorem foldl_replicate_zero : ∀ k : Nat,
    (List.replicate k 0).foldl (fun a d => a * 10 + d) 0 = 0 := by
  intro k
  induction k with
  | zero => rfl
  | succ m ih => simpa [List.replicate_succ] using ih

theorem charsToNat?_pad4Year {y : Nat} (hy : 1 ≤ y) :
    charsToNat? (pad4Year y) = some y := by
  have hnc : natChars y = natCharsAux y y := by
    simp [natChars, Nat.one_le_iff_ne_zero.mp hy]
  obtain ⟨ds, hds, hval⟩ := natCharsAux_spec y y le_rfl
  have hne : natCharsAux y y ≠ [] := natCharsAux_ne_nil hy le_rfl
  have hall : digitsVal? (pad4Year y) =
      some (List.replicate (4 - (natChars y).length) 0 ++ ds) := by
    unfold pad4Year
    exact digitsVal?_append (digitsVal?_replicate_zero _) (by rw [hnc]; exact hds)
  have hpne : pad4Year y ≠ [] := by
    unfold pad4Year
    rw [hnc]
    intro hcontra
    exact hne (List.append_eq_nil.mp hcontra).2
  rw [charsToNat?_eq hpne, hall]
  simp only [Option.map_some']
  congr 1
  unfold decimalVal
  rw [List.foldl_append, foldl_replicate_zero, hval 0]
  simp

theorem weekdayName_shape (y m d : Nat) :
    ∃ a b c : Char, weekdayNames.getD (weekdayIndex y m d) [] = [a, b, c] := by
  have h7 : weekdayIndex y m d < 7 := by
    unfold weekdayIndex
    exact Nat.mod_lt _ (by norm_num)
  obtain ⟨w, h7w, hw⟩ : ∃ w, w < 7 ∧ weekdayIndex y m d = w := ⟨_, h7, rfl⟩
  rw [hw]
  interval_cases w <;> exact ⟨_, _, _, rfl⟩

theorem monthName_parse {m : Nat} (h1 : 1 ≤ m) (h2 : m ≤ 12) :
    ∃ a b c : Char, monthNamesList.getD (m - 1) [] = [a, b, c] ∧
      monthOfName? [a, b, c] = some m := by
  interval_cases m <;> exact ⟨_, _, _, rfl, rfl⟩

theorem daysInMonth_le (y m : Nat) : daysInMonth y m ≤ 31 := by
  unfold daysInMonth
  split_ifs <;> norm_num

theorem daysInMonth_pos (y m : Nat) : 1 ≤ daysInMonth y m := by
  unfold daysInMonth
  split_ifs <;> norm_num

theorem parseDayKeyChars_shape (a b c m1 m2 m3 d1 d2 : Char) (rest : List Char) :
    parseDayKeyChars
        (a :: b :: c :: ' ' :: m1 :: m2 :: m3 :: ' ' :: d1 :: d2 :: ' ' :: rest) =
      match monthOfName? [m1, m2, m3], digitVal? d1, digitVal? d2, charsToNat? rest with
      | some m, some dTens, some dOnes, some y => some (y, m, dTens * 10 + dOnes)
      | _, _, _, _ => none := rfl

/-- Decoding dayKey of a valid date recovers its year, month and day. -/
theorem parse_dayKey (t : JSDate) (hv : ValidDate t) :
    parseDayKeyChars (dayKeyChars t) = some (t.year, t.month, t.day) := by
  obtain ⟨hy, hm1, hm2, hd1, hd2⟩ := hv
  have hd31 : t.day ≤ 31 := le_trans hd2 (daysInMonth_le _ _)
  obtain ⟨a, b, c, hw⟩ := weekdayName_shape t.year t.month t.day
  obtain ⟨m1, m2, m3, hmn, hmv⟩ := monthName_parse hm1 hm2
  have hdt : digitVal? (digitChar (t.day / 10)) = some (t.day / 10) :=
    digitVal?_digitChar _ (by omega)
  have hdo : digitVal? (digitChar (t.day % 10)) = some (t.day % 10) :=
    digitVal?_digitChar _ (by omega)
  have hyy : charsToNat? (pad4Year t.year) = some t.year := charsToNat?_pad4Year hy
  have hkey : dayKeyChars t =
      a :: b :: c :: ' ' :: m1 :: m2 :: m3 :: ' ' ::
        digitChar (t.day / 10) :: digitChar (t.day % 10) :: ' ' :: pad4Year t.year := by
    unfold dayKeyChars pad2
    rw [hw, hmn]
    simp
  rw [hkey, parseDayKeyChars_shape, hmv, hdt, hdo, hyy]
  have hday : t.day / 10 * 10 + t.day % 10 = t.day := by omega
  show some (t.year, t.month, t.day / 10 * 10 + t.day % 10) = some (t.year, t.month, t.day)
  rw [hday]




theorem dayKey_inj {t1 t2 : JSDate} (h1 : ValidDate t1) (h2 : ValidDate t2)
    (h : dayKey t1 = dayKey t2) :
    t1.year = t2.year ∧ t1.month = t2.month ∧ t1.day = t2.day := by
  have hc : dayKeyChars t1 = dayKeyChars t2 := congrArg String.data h
  have p2 := parse_dayKey t2 h2
  rw [← hc, parse_dayKey t1 h1] at p2
  simp only [Option.some.injEq, Prod.mk.injEq] at p2
  exact ⟨p2.1, p2.2.1, p2.2.2⟩

theorem validDate_nextDay {t : JSDate} (hv : ValidDate t) : ValidDate (nextDay t) := by
  obtain ⟨hy, hm1, hm2, hd1, hd2⟩ := hv
  unfold ValidDate nextDay
  split_ifs with hc1 hc2 <;> dsimp only <;>
    exact ⟨by omega, by omega, by omega, by omega,
      by first | omega | exact daysInMonth_pos _ _⟩

theorem dayKey_nextDay_ne {t : JSDate} (hv : ValidDate t) :
    dayKey (nextDay t) ≠ dayKey t := by
  intro h
  obtain ⟨hy2, hm2, hd2⟩ := dayKey_inj (validDate_nextDay hv) hv h
  unfold nextDay at hy2 hm2 hd2
  split_ifs at hy2 hm2 hd2 <;> dsimp only at hy2 hm2 hd2 <;> omega

theorem lookupEntry_setEntry_self {A : Type} (l : List (String × A)) (k : String) (v : A) :
    lookupEntry (setEntry l k v) k = some v := by
  induction l with
  | nil => simp [setEntry, lookupEntry]
  | cons p rest ih =>
    by_cases hp : p.1 = k
    · simp [setEntry, lookupEntry, hp]
    · simp [setEntry, lookupEntry, hp, ih]

theorem lookupEntry_setEntry_ne {A : Type} (l : List (String × A)) (k : String) (v : A)
    (kk : String) (h : kk ≠ k) :
    lookupEntry (setEntry l k v) kk = lookupEntry l kk := by
  induction l with
  | nil => simp [setEntry, lookupEntry, Ne.symm h]
  | cons p rest ih =>
    by_cases hp : p.1 = k
    · have hpk : p.1 ≠ kk := by rw [hp]; exact Ne.symm h
      rw [setEntry, if_pos hp, lookupEntry, if_neg (Ne.symm h), lookupEntry, if_neg hpk]
    · rw [setEntry, if_neg hp, lookupEntry, lookupEntry]
      by_cases hpk : p.1 = kk
      · rw [if_pos hpk, if_pos hpk]
      · rw [if_neg hpk, if_neg hpk, ih]

theorem carriedTodos_map_text (now : Nat) (p : List Todo) :
    (carriedTodos now p).map Todo.text = p.map Todo.text := by
  unfold carriedTodos
  rw [List.map_map]
  have he : (Todo.text ∘ fun pr : Nat × Todo => { pr.2 with id := now + pr.1 }) =
      (Todo.text ∘ Prod.snd) := rfl
  rw [he, ← List.map_map, List.enum_map_snd]

theorem carriedTodos_map_done (now : Nat) (p : List Todo) :
    (carriedTodos now p).map Todo.done = p.map Todo.done := by
  unfold carriedTodos
  rw [List.map_map]
  have he : (Todo.done ∘ fun pr : Nat × Todo => { pr.2 with id := now + pr.1 }) =
      (Todo.done ∘ Prod.snd) := rfl
  rw [he, ← List.map_map, List.enum_map_snd]

theorem carriedTodos_map_id (now : Nat) (p : List Todo) :
    (carriedTodos now p).map Todo.id = (List.range p.length).map (fun i => now + i) := by
  unfold carriedTodos
  rw [List.map_map]
  have he : (Todo.id ∘ fun pr : Nat × Todo => { pr.2 with id := now + pr.1 }) =
      ((fun i => now + i) ∘ Prod.fst) := rfl
  rw [he, ← List.map_map, List.enum_map_fst]

theorem carriedTodos_length (now : Nat) (p : List Todo) :
    (carriedTodos now p).length = p.length := by
  unfold carriedTodos
  simp

theorem mem_carriedTodos {now : Nat} {p : List Todo} {t : Todo}
    (h : t ∈ carriedTodos now p) :
    ∃ i u, i < p.length ∧ u ∈ p ∧ t = { u with id := now + i } := by
  unfold carriedTodos at h
  obtain ⟨pr, hpr, hteq⟩ := List.mem_map.mp h
  rw [List.enum_eq_zip_range] at hpr
  refine ⟨pr.1, pr.2, ?_, (List.of_mem_zip hpr).2, hteq.symm⟩
  exact List.mem_range.mp (List.of_mem_zip hpr).1




theorem isEmpty_false_of_ne_nil {α : Type} {l : List α} (h : l ≠ []) :
    l.isEmpty = false := by
  cases l with
  | nil => exact absurd rfl h
  | cons a l => rfl

theorem expense_foldl (items : List ExpenseItem) : ∀ a : ℚ,
    items.foldl (fun s it => s + it.amount) a =
      a + (items.map (fun it => it.amount)).sum := by
  induction items with
  | nil => intro a; simp
  | cons it rest ih =>
    intro a
    simp only [List.foldl_cons, List.map_cons, List.sum_cons]
    rw [ih (a + it.amount)]
    ring

theorem carryOver_noop_of_isEmpty {now : Nat} {st : Store} {date : JSDate}
    (h : (pendingOf st (dayKey date)).isEmpty = true) :
    carryOverTodosToTomorrow now st date = (st, false) := by
  unfold carryOverTodosToTomorrow
  dsimp only
  rw [h]
  simp

/-- Claim C2: with no pending item on the source day, carry-over returns
the store unchanged (both days byte-for-byte identical, no empty to-do
list created) and performs no durable write: the Bool component, which
records whether saveLogs ran, is false. -/
theorem claim_C2_carryOver_noop (now : Nat) (st : Store) (date : JSDate)
    (h : pendingOf st (dayKey date) = []) :
    carryOverTodosToTomorrow now st date = (st, false) :=
  carryOver_noop_of_isEmpty (by rw [h]; rfl)

theorem claim_C2_witness :
    carryOverTodosToTomorrow 50
        [(dayKey ⟨2025, 10, 6, 0, 0⟩, { todos := some [⟨1, "a", true⟩] })]
        ⟨2025, 10, 6, 0, 0⟩ =
      ([(dayKey ⟨2025, 10, 6, 0, 0⟩, { todos := some [⟨1, "a", true⟩] })], false) :=
  claim_C2_carryOver_noop 50 _ _ (by decide)

/-- Claim C3: goalPercent is round(value / goal * 100) for positive goal
and 0 for a non-positive goal; the label percent is unclamped (120 at
12000 over 10000) while the circular fill is the same percent clamped to
the interval from 0 to 100 (exactly 100 at 12000 over 10000). -/
theorem claim_C3_goalPercent (v g : ℚ) :
    (0 < g → goalPercent v g = round (v / g * 100)) ∧
    (g ≤ 0 → goalPercent v g = 0) ∧
    progressFill v g = min (max (goalPercent v g) 0) 100 ∧
    0 ≤ progressFill v g ∧ progressFill v g ≤ 100 ∧
    goalPercent 12000 10000 = 120 ∧ progressFill 12000 10000 = 100 := by
  refine ⟨?_, ?_, rfl, ?_, ?_, ?_, ?_⟩
  · intro hg
    rw [goalPercent, if_pos hg, round_eq]
  · intro hg
    rw [goalPercent, if_neg (not_lt.mpr hg)]
  · exact le_min (le_max_right _ _) (by norm_num)
  · exact min_le_right _ _
  · norm_num [goalPercent]
  · norm_num [progressFill, goalPercent]

theorem claim_C3_witness :
    goalPercent 4000 8000 = round ((4000 : ℚ) / 8000 * 100) :=
  (claim_C3_goalPercent 4000 8000).1 (by norm_num)

/-- Claim C4 counterexample: the goals input -5 is non-positive, yet the
stored steps goal is 1, not the built-in default 10000. -/
theorem claim_C4_counterexample :
    lookupEntry (saveMonthGoals [] "2025-10" (JSNum.num (-5)) (JSNum.num 120)) "2025-10" =
      some { stepsGoal := JSNum.num 1, studyGoal := JSNum.num 120 } ∧
    JSNum.num (1 : ℚ) ≠ JSNum.num (10000 : ℚ) := by
  constructor
  · norm_num [saveMonthGoals, setEntry, lookupEntry, coerceGoal, jsTruthy, jsFloor,
      jsMaxOne, defaultStepsGoal, defaultStudyGoal]
  · simp

/-- Claim C4 (amended): each stored goal is max(1, floor(input)), with a
falsy input (NaN or 0) first replaced by the built-in default; hence NaN
and 0 coerce to the default, every finite input is stored as a positive
integer, but a finite negative input clamps to 1 rather than the default
and positive infinity is stored unchanged. -/
theorem claim_C4_amended (goalsAll : List (String × MonthGoals)) (mk : String)
    (stepsIn studyIn : JSNum) :
    lookupEntry (saveMonthGoals goalsAll mk stepsIn studyIn) mk =
      some { stepsGoal := coerceGoal stepsIn defaultStepsGoal
             studyGoal := coerceGoal studyIn defaultStudyGoal } ∧
    (∀ d : ℚ, coerceGoal JSNum.nan d = JSNum.num (max 1 ((⌊d⌋ : ℤ) : ℚ))) ∧
    (∀ d : ℚ, coerceGoal (JSNum.num 0) d = JSNum.num (max 1 ((⌊d⌋ : ℤ) : ℚ))) ∧
    (∀ d : ℚ, coerceGoal JSNum.negInf d = JSNum.num 1) ∧
    (∀ d : ℚ, coerceGoal JSNum.posInf d = JSNum.posInf) ∧
    (∀ q d : ℚ, q ≠ 0 → coerceGoal (JSNum.num q) d = JSNum.num (max 1 ((⌊q⌋ : ℤ) : ℚ))) ∧
    (∀ q d : ℚ, ∃ k : ℤ, 1 ≤ k ∧ coerceGoal (JSNum.num q) d = JSNum.num (k : ℚ)) ∧
    coerceGoal (JSNum.num 10000) defaultStepsGoal = JSNum.num 10000 ∧
    coerceGoal (JSNum.num 120) defaultStudyGoal = JSNum.num 120 := by
  have hnum : ∀ q d : ℚ, q ≠ 0 →
      coerceGoal (JSNum.num q) d = JSNum.num (max 1 ((⌊q⌋ : ℤ) : ℚ)) := by
    intro q d hq
    simp [coerceGoal, jsTruthy, jsFloor, jsMaxOne, hq]
  have hcast : ∀ z : ℤ, max 1 ((z : ℤ) : ℚ) = ((max 1 z : ℤ) : ℚ) := by
    intro z
    rw [Int.cast_max]
    norm_num
  refine ⟨lookupEntry_setEntry_self _ _ _, ?_, ?_, fun d => rfl, fun d => rfl, hnum, ?_, ?_, ?_⟩
  · intro d
    simp [coerceGoal, jsTruthy, jsFloor, jsMaxOne]
  · intro d
    simp [coerceGoal, jsTruthy, jsFloor, jsMaxOne]
  · intro q d
    by_cases hq : q = 0
    · subst hq
      refine ⟨max 1 ⌊d⌋, le_max_left _ _, ?_⟩
      rw [show coerceGoal (JSNum.num 0) d = JSNum.num (max 1 ((⌊d⌋ : ℤ) : ℚ)) from by
        simp [coerceGoal, jsTruthy, jsFloor, jsMaxOne]]
      rw [hcast]
    · refine ⟨max 1 ⌊q⌋, le_max_left _ _, ?_⟩
      rw [hnum q d hq, hcast]
  · rw [hnum 10000 defaultStepsGoal (by norm_num)]
    norm_num
  · rw [hnum 120 defaultStudyGoal (by norm_num)]
    norm_num

theorem claim_C4_witness :
    coerceGoal (JSNum.num (-5)) 10000 = JSNum.num (max 1 ((⌊(-5 : ℚ)⌋ : ℤ) : ℚ)) :=
  (claim_C4_amended [] "k" JSNum.nan JSNum.nan).2.2.2.2.2.1 (-5) 10000 (by norm_num)

/-- Claim C7: the day expense total is the sum of the amount fields, it
is 0 for an empty or absent expense list, and adding expenses of 1200 and
300 to one day yields a stored day total of 1500. -/
theorem claim_C7_dayExpenseTotal :
    (∀ items : List ExpenseItem,
      expenseTotal items = (items.map (fun it => it.amount)).sum) ∧
    (∀ l : DayLog, l.expenses = none → dayExpenseTotal l = 0) ∧
    dayExpenseTotal {} = 0 ∧
    dayExpenseTotal
        { expenses := some (addExpenseItem 2 (JSNum.num 300) ""
            (addExpenseItem 1 (JSNum.num 1200) "lunch" [])) } = 1500 := by
  refine ⟨?_, ?_, rfl, ?_⟩
  · intro items
    rw [expenseTotal, expense_foldl items 0, zero_add]
  · intro l h
    rw [dayExpenseTotal, h]
    rfl
  · norm_num [dayExpenseTotal, expenseTotal, addExpenseItem, jsFloor]

theorem claim_C7_witness : dayExpenseTotal {} = 0 :=
  claim_C7_dayExpenseTotal.2.1 {} rfl

/-- Claim C8: startup loading is total and never throws: a missing slot,
an empty slot, or slot content the JSON decoder rejects all load as the
empty mapping, while successfully decoded content loads as the decoded
mapping.  decode stands for the external JSON.parse collaborator, with
none for a thrown exception. -/
theorem claim_C8_loadLogs (decode : String → Option Store) :
    loadLogs decode none = [] ∧
    loadLogs decode (some "") = [] ∧
    (∀ s : String, decode s = none → loadLogs decode (some s) = []) ∧
    (∀ s : String, ∀ v : Store, s ≠ "" → decode s = some v →
      loadLogs decode (some s) = v) := by
  refine ⟨rfl, by simp [loadLogs, safeParse], ?_, ?_⟩
  · intro s h
    by_cases hs : s = ""
    · subst hs
      simp [loadLogs, safeParse]
    · simp [loadLogs, safeParse, hs, h]
  · intro s v hs h
    simp [loadLogs, safeParse, hs, h]

theorem claim_C8_witness : loadLogs (fun _ => none) (some "garbage") = [] :=
  (claim_C8_loadLogs (fun _ => none)).2.2.1 "garbage" rfl

/-- Claim C9 counterexample: one half is a positive finite input, yet the
add-expense operation appends nothing, because Math.floor maps it to 0
and the guard rejects 0. -/
theorem claim_C9_counterexample :
    addExpenseItem 7 (JSNum.num (1 / 2)) "x" [] = [] ∧ (0 : ℚ) < 1 / 2 := by
  constructor
  · norm_num [addExpenseItem, jsFloor]
  · norm_num

/-- Claim C9 (amended): a non-finite input never appends; a finite input
below 1 (hence every zero or negative input) never appends; a finite
input of at least 1 appends exactly one item whose amount is the positive
integer floor of the input. -/
theorem claim_C9_amended (now : Nat) (x : JSNum) (note : String)
    (items : List ExpenseItem) :
    (jsIsFinite x = false → addExpenseItem now x note items = items) ∧
    (∀ q : ℚ, q < 1 → addExpenseItem now (JSNum.num q) note items = items) ∧
    (∀ q : ℚ, 1 ≤ q →
      addExpenseItem now (JSNum.num q) note items =
        items ++ [{ id := now, amount := ((⌊q⌋ : ℤ) : ℚ)
                    note := if note.trim = "" then none else some note.trim
                    createdAt := now }] ∧
      1 ≤ (⌊q⌋ : ℤ)) := by
  refine ⟨?_, ?_, ?_⟩
  · intro h
    cases x with
    | nan => rfl
    | posInf => rfl
    | negInf => rfl
    | num q => exact absurd h (by simp [jsIsFinite])
  · intro q hq
    have hfl : ⌊q⌋ ≤ 0 := by
      have := Int.floor_lt.mpr (show q < ((1 : ℤ) : ℚ) by exact_mod_cast hq)
      omega
    have hle : ((⌊q⌋ : ℤ) : ℚ) ≤ 0 := by exact_mod_cast hfl
    simp only [addExpenseItem, jsFloor]
    rw [if_pos hle]
  · intro q hq
    have hfl : 1 ≤ ⌊q⌋ := Int.le_floor.mpr (by exact_mod_cast hq)
    have hgt : ¬ ((⌊q⌋ : ℤ) : ℚ) ≤ 0 := by
      rw [not_le]
      exact_mod_cast hfl
    constructor
    · simp only [addExpenseItem, jsFloor]
      rw [if_neg hgt]
    · exact hfl

theorem claim_C9_witness :
    addExpenseItem 3 (JSNum.num 1200) "lunch" [] =
      [{ id := 3, amount := ((⌊(1200 : ℚ)⌋ : ℤ) : ℚ)
         note := if "lunch".trim = "" then none else some "lunch".trim
         createdAt := 3 }] ∧
    1 ≤ (⌊(1200 : ℚ)⌋ : ℤ) :=
  (claim_C9_amended 3 (JSNum.num 1200) "lunch" []).2.2 1200 (by norm_num)




/-- Claim C6: dayKey depends only on the calendar day (any two dates
differing only in time of day share a key) and is injective across valid
calendar days (distinct days give distinct keys); it is a total pure
function by construction. -/
theorem claim_C6_dayKey (a b : JSDate) :
    (a.year = b.year → a.month = b.month → a.day = b.day → dayKey a = dayKey b) ∧
    (ValidDate a → ValidDate b → dayKey a = dayKey b →
      a.year = b.year ∧ a.month = b.month ∧ a.day = b.day) := by
  constructor
  · intro h1 h2 h3
    unfold dayKey dayKeyChars
    rw [h1, h2, h3]
  · exact fun ha hb h => dayKey_inj ha hb h

theorem claim_C6_witness :
    dayKey ⟨2025, 10, 6, 8, 30⟩ = dayKey ⟨2025, 10, 6, 22, 5⟩ :=
  (claim_C6_dayKey ⟨2025, 10, 6, 8, 30⟩ ⟨2025, 10, 6, 22, 5⟩).1 rfl rfl rfl

theorem keyInMonth_dayKey {t : JSDate} (hv : ValidDate t) (y m : Nat) :
    keyInMonth (dayKey t) y m = (t.year == y && t.month == m) := by
  unfold keyInMonth
  rw [show (dayKey t).data = dayKeyChars t from rfl, parse_dayKey t hv]

theorem monthly_foldl (st : Store) (y m : Nat) : ∀ a : ℚ,
    st.foldl (fun sum kv =>
      if keyInMonth kv.1 y m then sum + dayExpenseTotal kv.2 else sum) a =
    a + ((st.filter (fun kv => keyInMonth kv.1 y m)).map
      (fun kv => dayExpenseTotal kv.2)).sum := by
  induction st with
  | nil => intro a; simp
  | cons kv rest ih =>
    intro a
    cases hk : keyInMonth kv.1 y m with
    | true =>
      simp only [List.foldl_cons, List.filter_cons, hk]
      simp only [if_true]
      rw [List.map_cons, List.sum_cons, ih (a + dayExpenseTotal kv.2)]
      ring
    | false =>
      simp only [List.foldl_cons, List.filter_cons, hk]
      rw [if_neg (by simp), if_neg (by simp)]
      exact ih a

/-- Claim C5: the monthly expense total is the sum of dayExpenseTotal
over exactly the stored entries whose key decodes to the queried year and
month; appending a day of the queried month adds its day total, and
appending a day of any other month (adjacent included) adds nothing. -/
theorem claim_C5_monthlyExpenseTotal (st : Store) (date : JSDate) :
    monthlyExpenseTotal st date =
      ((st.filter (fun kv => keyInMonth kv.1 date.year date.month)).map
        (fun kv => dayExpenseTotal kv.2)).sum ∧
    (∀ (t : JSDate) (log : DayLog), ValidDate t →
      (t.year = date.year ∧ t.month = date.month →
        monthlyExpenseTotal (st ++ [(dayKey t, log)]) date =
          monthlyExpenseTotal st date + dayExpenseTotal log) ∧
      (¬ (t.year = date.year ∧ t.month = date.month) →
        monthlyExpenseTotal (st ++ [(dayKey t, log)]) date =
          monthlyExpenseTotal st date)) := by
  constructor
  · rw [monthlyExpenseTotal, monthly_foldl, zero_add]
  · intro t log hv
    have hbase : ∀ stx : Store, monthlyExpenseTotal (stx ++ [(dayKey t, log)]) date =
        if keyInMonth (dayKey t) date.year date.month then
          monthlyExpenseTotal stx date + dayExpenseTotal log
        else monthlyExpenseTotal stx date := by
      intro stx
      rw [monthlyExpenseTotal, List.foldl_append]
      simp only [List.foldl_cons, List.foldl_nil]
      rfl
    constructor
    · intro hmatch
      rw [hbase st, keyInMonth_dayKey hv]
      simp [hmatch.1, hmatch.2]
    · intro hmatch
      rw [hbase st, keyInMonth_dayKey hv]
      have hb : (t.year == date.year && t.month == date.month) = false := by
        rw [Bool.and_eq_false_iff]
        by_cases h1 : t.year = date.year
        · right
          rw [beq_eq_false_iff_ne]
          exact fun h2 => hmatch ⟨h1, h2⟩
        · left
          rw [beq_eq_false_iff_ne]
          exact h1
      rw [hb]
      simp

theorem claim_C5_witness :
    monthlyExpenseTotal
        ([] ++ [(dayKey ⟨2025, 9, 30, 0, 0⟩,
          { expenses := some [⟨1, 700, none, 1⟩] })]) ⟨2025, 10, 6, 0, 0⟩ =
      monthlyExpenseTotal [] ⟨2025, 10, 6, 0, 0⟩ :=
  ((claim_C5_monthlyExpenseTotal [] ⟨2025, 10, 6, 0, 0⟩).2
    ⟨2025, 9, 30, 0, 0⟩ { expenses := some [⟨1, 700, none, 1⟩] } (by decide)).2
    (by simp)





theorem carryOver_eq_of_pending {now : Nat} {st : Store} {date : JSDate}
    (h : (pendingOf st (dayKey date)).isEmpty = false) :
    carryOverTodosToTomorrow now st date =
      (setEntry
        (setEntry st (dayKey date)
          { (lookupEntry st (dayKey date)).getD {} with
              todos := some (doneOf st (dayKey date)) })
        (dayKey (nextDay date))
        { (lookupEntry st (dayKey (nextDay date))).getD {} with
            todos := some ((((lookupEntry st (dayKey (nextDay date))).getD {}).todos).getD []
              ++ carriedTodos now (pendingOf st (dayKey date))) }, true) := by
  unfold carryOverTodosToTomorrow
  dsimp only
  rw [h]
  simp

/-- Claim C10: carry-over changes at most the todos field of the source
day log and the todos field of the destination day log: every other field
of those two logs and the entry under every other key are unchanged. -/
theorem claim_C10_carryOver_frame (now : Nat) (st : Store) (date : JSDate) :
    (∀ k : String, k ≠ dayKey date → k ≠ dayKey (nextDay date) →
      lookupEntry (carryOverTodosToTomorrow now st date).1 k = lookupEntry st k) ∧
    eraseTodos ((lookupEntry (carryOverTodosToTomorrow now st date).1
        (dayKey date)).getD {}) =
      eraseTodos ((lookupEntry st (dayKey date)).getD {}) ∧
    eraseTodos ((lookupEntry (carryOverTodosToTomorrow now st date).1
        (dayKey (nextDay date))).getD {}) =
      eraseTodos ((lookupEntry st (dayKey (nextDay date))).getD {}) := by
  cases hp : (pendingOf st (dayKey date)).isEmpty with
  | true =>
    rw [carryOver_noop_of_isEmpty hp]
    exact ⟨fun k _ _ => rfl, rfl, rfl⟩
  | false =>
    rw [carryOver_eq_of_pending hp]
    dsimp only
    refine ⟨?_, ?_, ?_⟩
    · intro k hk1 hk2
      rw [lookupEntry_setEntry_ne _ _ _ _ hk2, lookupEntry_setEntry_ne _ _ _ _ hk1]
    · by_cases htk : dayKey (nextDay date) = dayKey date
      · rw [htk, lookupEntry_setEntry_self]
        rfl
      · rw [lookupEntry_setEntry_ne _ _ _ _ (Ne.symm htk), lookupEntry_setEntry_self]
        rfl
    · rw [lookupEntry_setEntry_self]
      rfl

theorem claim_C10_witness :
    lookupEntry (carryOverTodosToTomorrow 5 [] ⟨2025, 10, 6, 0, 0⟩).1 "other" =
      lookupEntry [] "other" :=
  (claim_C10_carryOver_frame 5 [] ⟨2025, 10, 6, 0, 0⟩).1 "other" (by decide) (by decide)





theorem todosOf_setEntry_self (st : Store) (k : String) (v : DayLog) :
    todosOf (setEntry st k v) k = v.todos.getD [] := by
  unfold todosOf
  rw [lookupEntry_setEntry_self]
  rfl

theorem todosOf_setEntry_ne (st : Store) (k : String) (v : DayLog) (kk : String)
    (h : kk ≠ k) : todosOf (setEntry st k v) kk = todosOf st kk := by
  unfold todosOf
  rw [lookupEntry_setEntry_ne _ _ _ _ h]

/-- Claim C1 counterexample: when Date.now() equals an identifier already
present in the destination list (here both are 100), the carried item
collides with it: the destination identifiers are not pairwise distinct
after the carry-over, refuting the unconditional no-collision claim. -/
theorem claim_C1_counterexample :
    ¬ ((todosOf
        (carryOverTodosToTomorrow 100
          [(dayKey ⟨2025, 10, 6, 0, 0⟩, { todos := some [⟨1, "a", false⟩] }),
           (dayKey ⟨2025, 10, 7, 0, 0⟩, { todos := some [⟨100, "b", false⟩] })]
          ⟨2025, 10, 6, 0, 0⟩).1
        (dayKey ⟨2025, 10, 7, 0, 0⟩)).map Todo.id).Nodup := by
  decide

/-- Claim C1 (amended): with at least one pending item on a valid source
date, carry-over leaves the source day with exactly its done items (all
done), leaves the destination day with its original items in order
followed by the carried items, performs the durable write, and the
carried items keep their texts in order, have done false and carry the
pairwise-distinct identifiers now + 0 .. now + N - 1; provided no
identifier already in the destination list lies among now .. now + N - 1
(which the wall-clock identifier scheme cannot guarantee for every store,
see the counterexample), no carried identifier collides with any
identifier already in the destination list. -/
theorem claim_C1_carryOver (now : Nat) (st : Store) (date : JSDate)
    (hv : ValidDate date)
    (hp : pendingOf st (dayKey date) ≠ [])
    (hfresh : ∀ u ∈ todosOf st (dayKey (nextDay date)),
      ∀ i < (pendingOf st (dayKey date)).length, u.id ≠ now + i) :
    todosOf (carryOverTodosToTomorrow now st date).1 (dayKey date) =
        (todosOf st (dayKey date)).filter (fun t => t.done) ∧
    (∀ t ∈ todosOf (carryOverTodosToTomorrow now st date).1 (dayKey date),
      t.done = true) ∧
    todosOf (carryOverTodosToTomorrow now st date).1 (dayKey (nextDay date)) =
        todosOf st (dayKey (nextDay date)) ++
          carriedTodos now (pendingOf st (dayKey date)) ∧
    (carriedTodos now (pendingOf st (dayKey date))).length =
        (pendingOf st (dayKey date)).length ∧
    (carriedTodos now (pendingOf st (dayKey date))).map Todo.text =
        (pendingOf st (dayKey date)).map Todo.text ∧
    (∀ t ∈ carriedTodos now (pendingOf st (dayKey date)), t.done = false) ∧
    (carriedTodos now (pendingOf st (dayKey date))).map Todo.id =
        (List.range (pendingOf st (dayKey date)).length).map (fun i => now + i) ∧
    ((carriedTodos now (pendingOf st (dayKey date))).map Todo.id).Nodup ∧
    (∀ t ∈ carriedTodos now (pendingOf st (dayKey date)),
      ∀ u ∈ todosOf st (dayKey (nextDay date)), t.id ≠ u.id) ∧
    (carryOverTodosToTomorrow now st date).2 = true := by
  have hpe : (pendingOf st (dayKey date)).isEmpty = false := isEmpty_false_of_ne_nil hp
  have hne : dayKey (nextDay date) ≠ dayKey date := dayKey_nextDay_ne hv
  rw [carryOver_eq_of_pending hpe]
  dsimp only
  refine ⟨?_, ?_, ?_, carriedTodos_length now _, carriedTodos_map_text now _, ?_,
    carriedTodos_map_id now _, ?_, ?_, rfl⟩
  · rw [todosOf_setEntry_ne _ _ _ _ (Ne.symm hne), todosOf_setEntry_self]
    rfl
  · intro t ht
    rw [todosOf_setEntry_ne _ _ _ _ (Ne.symm hne), todosOf_setEntry_self] at ht
    have ht2 : t ∈ doneOf st (dayKey date) := ht
    exact (List.mem_filter.mp ht2).2
  · rw [todosOf_setEntry_self]
    rfl
  · intro t ht
    obtain ⟨i, u, hi, hu, rfl⟩ := mem_carriedTodos ht
    have hu2 := (List.mem_filter.mp hu).2
    simpa using hu2
  · rw [carriedTodos_map_id]
    refine List.Nodup.map ?_ (List.nodup_range _)
    intro a b hab
    dsimp only at hab
    omega
  · intro t ht u hu
    obtain ⟨i, w, hi, hw, rfl⟩ := mem_carriedTodos ht
    exact Ne.symm (hfresh u hu i hi)
  

theorem claim_C1_witness :
    todosOf
        (carryOverTodosToTomorrow 1000
          [(dayKey ⟨2025, 10, 6, 0, 0⟩,
            { todos := some [⟨1, "a", false⟩, ⟨2, "b", true⟩] }),
           (dayKey ⟨2025, 10, 7, 0, 0⟩, { todos := some [⟨5, "c", false⟩] })]
          ⟨2025, 10, 6, 0, 0⟩).1
        (dayKey ⟨2025, 10, 6, 0, 0⟩) =
      (todosOf
        [(dayKey ⟨2025, 10, 6, 0, 0⟩,
          { todos := some [⟨1, "a", false⟩, ⟨2, "b", true⟩] }),
         (dayKey ⟨2025, 10, 7, 0, 0⟩, { todos := some [⟨5, "c", false⟩] })]
        (dayKey ⟨2025, 10, 6, 0, 0⟩)).filter (fun t => t.done) :=
  (claim_C1_carryOver 1000
    [(dayKey ⟨2025, 10, 6, 0, 0⟩,
      { todos := some [⟨1, "a", false⟩, ⟨2, "b", true⟩] }),
     (dayKey ⟨2025, 10, 7, 0, 0⟩, { todos := some [⟨5, "c", false⟩] })]
    ⟨2025, 10, 6, 0, 0⟩ (by decide) (by decide) (by decide)).1

end LifeLog
